import Mathlib

/-!
Shallow embedding of the proxy TCP client (`src/main.rs`).

Bytes are modelled as `Nat` (a real byte is `< 256`; arithmetic that the
source performs on `u32` is taken modulo `2 ^ 32` explicitly).  The TCP
stream is modelled as the list of chunks returned by the successive
`stream.read` calls: reading consumes the head chunk; an empty chunk, or an
exhausted list, models a read that returns 0 bytes (peer closed), which the
source treats as fatal.  Fallible code (Rust `panic!` / `expect` /
`assert_eq!`) is modelled with `Option` or with an explicit abort in the
session trace.
-/

/-- `u32::MAX` (the constant `4294967295` used by `add_headers`). -/
def u32MAX : Nat := 2 ^ 32 - 1

/-- `MAX_BATCH_SIZE` from the source: the size of the read buffer.  A real
read returns at most this many bytes; the model places no upper bound on a
chunk, which only enlarges the set of streams the theorems cover. -/
def MAX_BATCH_SIZE : Nat := 500

/-- `(length as u32).to_be_bytes()`: the 4-byte big-endian representation of
`n % 2 ^ 32`. -/
def toBeBytes (n : Nat) : List Nat :=
  [n / 2 ^ 24 % 256, n / 2 ^ 16 % 256, n / 2 ^ 8 % 256, n % 256]

/-- `u32::from_be_bytes([b[0], b[1], b[2], b[3]])`: reads the first four
entries.  The source only applies this to buffers of length at least 4
(`tcp_read_with_headers` loops until that holds); shorter lists fall into the
default branch, which the program never reaches. -/
def fromBeBytes : List Nat → Nat
  | b0 :: b1 :: b2 :: b3 :: _ => b0 * 2 ^ 24 + b1 * 2 ^ 16 + b2 * 2 ^ 8 + b3
  | _ => 0

/-- `add_headers`: length-prefix a message.  `none` models the
`panic!("Maximum allowed length is ...")` when the length exceeds
`u32::MAX`. -/
def add_headers (message : List Nat) : Option (List Nat) :=
  if u32MAX < message.length then none
  else some (toBeBytes (message.length % 2 ^ 32) ++ message)

/-- `parse_headers`: split a buffer (of length ≥ 4 at every call site) into
the big-endian `u32` of its first four bytes and the remaining bytes
(`message[4..].to_vec()`). -/
def parse_headers (message : List Nat) : Nat × List Nat :=
  (fromBeBytes message, message.drop 4)

/-- `one_tcp_read`: one `stream.read` call.  It consumes the next chunk of
the stream; `none` models the `panic!("Issue with the TCP read, got 0
bytes")` on a zero-byte read (an empty chunk, or reading an exhausted
stream). -/
def one_tcp_read : List (List Nat) → Option (List Nat × List (List Nat))
  | [] => none
  | c :: rest => if c.length = 0 then none else some (c, rest)

/-- The accumulation loop shared by `tcp_read_with_headers`
(`while initial_message.len() < 4 \x7b initial_message.extend(one_tcp_read(stream)) \x7d`)
and `load_tcp_message`
(`while overall_message.len() < overall_length \x7b ... \x7d`):
keep extending `acc` with `one_tcp_read` (inlined here so the recursion is
structural on the stream) until it holds at least `target` bytes; `none`
models the panic on a zero-byte read. -/
def readUntil (target : Nat) (acc : List Nat) : List (List Nat) → Option (List Nat × List (List Nat))
  | [] => if target ≤ acc.length then some (acc, []) else none
  | c :: rest =>
    if target ≤ acc.length then some (acc, c :: rest)
    else if c.length = 0 then none
    else readUntil target (acc ++ c) rest

/-- `tcp_read_with_headers`: accumulate at least 4 bytes, then split them
with `parse_headers`.  The second component of the result is the not yet
consumed part of the stream (the advanced read position of the socket). -/
def tcp_read_with_headers (stream : List (List Nat)) :
    Option ((Nat × List Nat) × List (List Nat)) :=
  match readUntil 4 [] stream with
  | none => none
  | some (m, rest) => some (parse_headers m, rest)

/-- `load_tcp_message` (the Decode operation): resolve the declared length
`overall_length` and the body bytes that arrived with the header, accumulate
until at least `overall_length` body bytes are present, and truncate any
excess.  The Rust function returns only the body; the second component of
the pair models the advanced read position of the socket, which in Rust is
state inside the `TcpStream`. -/
def load_tcp_message (stream : List (List Nat)) :
    Option (List Nat × List (List Nat)) :=
  match tcp_read_with_headers stream with
  | none => none
  | some ((overall_length, current_body), rest) =>
    match readUntil overall_length current_body rest with
    | none => none
    | some (overall_message, rest2) =>
      some (if overall_length < overall_message.length
            then overall_message.take overall_length
            else overall_message, rest2)

/-! ### Basic facts about the framer -/

theorem toBeBytes_length (n : Nat) : (toBeBytes n).length = 4 := rfl

theorem fromBeBytes_toBeBytes (n : Nat) (h : n < 2 ^ 32) :
    fromBeBytes (toBeBytes n) = n := by
  simp only [toBeBytes, fromBeBytes]
  omega

theorem fromBeBytes_append (l1 l2 : List Nat) (h : 4 ≤ l1.length) :
    fromBeBytes (l1 ++ l2) = fromBeBytes l1 := by
  match l1 with
  | b0 :: b1 :: b2 :: b3 :: t => simp [fromBeBytes]
  | [] => simp at h
  | [b0] => simp at h
  | [b0, b1] => simp at h
  | [b0, b1, b2] => simp at h

/-- A successful `readUntil` returns at least `target` bytes. -/
theorem readUntil_ge (t : Nat) (s : List (List Nat)) :
    ∀ acc m r, readUntil t acc s = some (m, r) → t ≤ m.length := by
  induction s with
  | nil =>
    intro acc m r h
    simp only [readUntil] at h
    split at h
    · cases h; assumption
    · cases h
  | cons c rest ih =>
    intro acc m r h
    simp only [readUntil] at h
    split at h
    · cases h; assumption
    · split at h
      · cases h
      · exact ih _ _ _ h

/-- Running `readUntil` over nonempty chunks that together hold enough
bytes: some prefix `cs1` of the chunk list is consumed and the result is
`acc` extended with exactly those chunks, the rest of the stream being
untouched. -/
theorem readUntil_append_some (t : Nat) (cs : List (List Nat)) :
    ∀ (acc : List Nat) (extra : List (List Nat)),
      (∀ c ∈ cs, c ≠ []) → t ≤ acc.length + cs.flatten.length →
      ∃ cs1 cs2, cs = cs1 ++ cs2 ∧
        readUntil t acc (cs ++ extra) = some (acc ++ cs1.flatten, cs2 ++ extra) := by
  induction cs with
  | nil =>
    intro acc extra _ hlen
    simp only [List.flatten_nil, List.length_nil, Nat.add_zero] at hlen
    refine ⟨[], [], rfl, ?_⟩
    cases extra with
    | nil => simp [readUntil, hlen]
    | cons c cs => simp [readUntil, hlen]
  | cons c rest ih =>
    intro acc extra h hlen
    by_cases hta : t ≤ acc.length
    · exact ⟨[], c :: rest, rfl, by simp [readUntil, hta]⟩
    · have hc : c ≠ [] := h c (by simp)
      have hclen : ¬ c.length = 0 := by simpa using hc
      have hlen2 : t ≤ (acc ++ c).length + rest.flatten.length := by
        simp only [List.flatten_cons, List.length_append] at hlen ⊢
        omega
      obtain ⟨cs1, cs2, hsplit, heq⟩ :=
        ih (acc ++ c) extra (fun x hx => h x (by simp [hx])) hlen2
      refine ⟨c :: cs1, cs2, by simp [hsplit], ?_⟩
      simp only [List.cons_append, readUntil, hta, hclen, if_false, List.append_eq]
      rw [heq]
      simp [List.append_assoc]

/-- Running `readUntil` over nonempty chunks that do NOT hold enough bytes:
a zero-byte read (explicit empty chunk, or exhaustion of the stream) is
reached and the loop fails. -/
theorem readUntil_short_none (t : Nat) (cs : List (List Nat)) :
    ∀ (acc : List Nat) (extra : List (List Nat)),
      (∀ c ∈ cs, c ≠ []) → acc.length + cs.flatten.length < t →
      readUntil t acc (cs ++ [] :: extra) = none ∧ readUntil t acc cs = none := by
  induction cs with
  | nil =>
    intro acc extra _ hlen
    simp only [List.flatten_nil, List.length_nil, Nat.add_zero] at hlen
    have hta : ¬ t ≤ acc.length := by omega
    constructor
    · simp [readUntil, hta]
    · simp [readUntil, hta]
  | cons c rest ih =>
    intro acc extra h hlen
    have hta : ¬ t ≤ acc.length := by
      simp only [List.flatten_cons, List.length_append] at hlen
      omega
    have hc : c ≠ [] := h c (by simp)
    have hclen : ¬ c.length = 0 := by simpa using hc
    have hlen2 : (acc ++ c).length + rest.flatten.length < t := by
      simp only [List.flatten_cons, List.length_append] at hlen ⊢
      omega
    obtain ⟨ih1, ih2⟩ := ih (acc ++ c) extra (fun x hx => h x (by simp [hx])) hlen2
    constructor
    · simp only [List.cons_append, readUntil, hta, if_false, hclen, List.append_eq]
      exact ih1
    · simp only [readUntil, hta, if_false, hclen]
      exact ih2

/-- Decode over any stream of nonempty chunks whose bytes contain at least
one full frame: the returned body is bytes `4 .. 4+L` of the delivered byte
sequence, where `L` is the big-endian `u32` declared by the first four
bytes; any excess bytes are truncated away. -/
theorem load_tcp_message_flatten (cs : List (List Nat))
    (h1 : ∀ c ∈ cs, c ≠ [])
    (h2 : 4 + fromBeBytes cs.flatten ≤ cs.flatten.length) :
    ∃ rest, load_tcp_message cs =
      some ((cs.flatten.drop 4).take (fromBeBytes cs.flatten), rest) := by
  have h4 : 4 ≤ cs.flatten.length := by omega
  obtain ⟨cs1, cs2, hsplit, heq⟩ :=
    readUntil_append_some 4 cs [] [] h1 (by simpa using h4)
  simp only [List.append_nil, List.nil_append] at heq
  have hhdr4 : 4 ≤ cs1.flatten.length := readUntil_ge 4 cs _ _ _ heq
  have hflat : cs.flatten = cs1.flatten ++ cs2.flatten := by
    rw [hsplit, List.flatten_append]
  have hL : fromBeBytes cs.flatten = fromBeBytes cs1.flatten := by
    rw [hflat, fromBeBytes_append _ _ hhdr4]
  rw [hL] at h2 ⊢
  have hlenflat : cs.flatten.length = cs1.flatten.length + cs2.flatten.length := by
    rw [hflat, List.length_append]
  have h1' : ∀ c ∈ cs2, c ≠ [] := by
    intro c hc
    exact h1 c (by rw [hsplit]; exact List.mem_append_right _ hc)
  have hlen2 : fromBeBytes cs1.flatten ≤
      (cs1.flatten.drop 4).length + cs2.flatten.length := by
    simp only [List.length_drop]
    omega
  obtain ⟨cs3, cs4, hsplit2, heq2⟩ :=
    readUntil_append_some (fromBeBytes cs1.flatten) cs2 (cs1.flatten.drop 4) [] h1' hlen2
  simp only [List.append_nil] at heq2
  have hmsg : fromBeBytes cs1.flatten ≤ (cs1.flatten.drop 4 ++ cs3.flatten).length :=
    readUntil_ge _ cs2 _ _ _ heq2
  have hdrop : cs.flatten.drop 4 = (cs1.flatten.drop 4 ++ cs3.flatten) ++ cs4.flatten := by
    rw [hflat, List.drop_append_of_le_length hhdr4, hsplit2, List.flatten_append,
      List.append_assoc]
  refine ⟨cs4, ?_⟩
  rw [hdrop]
  simp only [load_tcp_message, tcp_read_with_headers, heq, parse_headers, heq2]
  by_cases hlt : fromBeBytes cs1.flatten < (cs1.flatten.drop 4 ++ cs3.flatten).length
  · rw [if_pos hlt, List.take_append_of_le_length (Nat.le_of_lt hlt)]
  · rw [if_neg hlt]
    have hleneq : (cs1.flatten.drop 4 ++ cs3.flatten).length = fromBeBytes cs1.flatten :=
      Nat.le_antisymm (Nat.le_of_not_lt hlt) hmsg
    rw [← hleneq, List.take_left]

/-- `C1`: round-trip.  For every byte sequence `b` with
`len(b) ≤ 2 ^ 32 - 1`, encoding `b` with `add_headers` succeeds, and feeding
the produced frame to the decoder (`load_tcp_message`) as the stream's
contents returns exactly `b`. -/
theorem round_trip_decode_encode (b : List Nat) (hb : b.length ≤ u32MAX) :
    ∃ F, add_headers b = some F ∧
      (load_tcp_message [F]).map Prod.fst = some b := by
  have hb32 : b.length < 2 ^ 32 := by
    simp only [u32MAX] at hb
    omega
  have hmod : b.length % 2 ^ 32 = b.length := Nat.mod_eq_of_lt hb32
  refine ⟨toBeBytes b.length ++ b, ?_, ?_⟩
  · unfold add_headers
    rw [if_neg (Nat.not_lt.mpr hb), hmod]
  · have hne : ∀ c ∈ [toBeBytes b.length ++ b], c ≠ [] := by
      intro c hc
      simp only [List.mem_singleton] at hc
      subst hc
      intro hnil
      have := congrArg List.length hnil
      simp [toBeBytes_length] at this
    have hflat : ([toBeBytes b.length ++ b] : List (List Nat)).flatten
        = toBeBytes b.length ++ b := by simp
    have hfb : fromBeBytes (toBeBytes b.length ++ b) = b.length := by
      rw [fromBeBytes_append _ _ (by rw [toBeBytes_length]),
        fromBeBytes_toBeBytes _ hb32]
    obtain ⟨rest, hload⟩ := load_tcp_message_flatten [toBeBytes b.length ++ b] hne
      (by rw [hflat, hfb]; simp [toBeBytes_length])
    rw [hflat, hfb] at hload
    rw [hload]
    simp [List.drop_left' (toBeBytes_length b.length)]

/-- Witness for `round_trip_decode_encode` at `b = [1, 2, 3]`. -/
theorem round_trip_decode_encode_witness :
    ([1, 2, 3] : List Nat).length ≤ u32MAX ∧
      ∃ F, add_headers [1, 2, 3] = some F ∧
        (load_tcp_message [F]).map Prod.fst = some [1, 2, 3] :=
  ⟨by decide, round_trip_decode_encode [1, 2, 3] (by decide)⟩

/-- `load_tcp_message` of a single read that delivers exactly one frame. -/
theorem load_single_frame (body : List Nat) (hb : body.length ≤ u32MAX) :
    ∃ rest, load_tcp_message [toBeBytes body.length ++ body] = some (body, rest) := by
  have hb32 : body.length < 2 ^ 32 := by
    simp only [u32MAX] at hb
    omega
  have hfb : fromBeBytes (toBeBytes body.length ++ body) = body.length := by
    rw [fromBeBytes_append _ _ (by rw [toBeBytes_length]), fromBeBytes_toBeBytes _ hb32]
  have hne : ∀ c ∈ [toBeBytes body.length ++ body], c ≠ [] := by
    intro c hc
    simp only [List.mem_singleton] at hc
    subst hc
    intro hnil
    have := congrArg List.length hnil
    simp [toBeBytes_length] at this
  obtain ⟨rest, hload⟩ := load_tcp_message_flatten _ hne
    (by simp [hfb, toBeBytes_length])
  refine ⟨rest, ?_⟩
  rw [hload]
  simp [hfb, List.drop_left' (toBeBytes_length body.length)]

/-- `C2`: `Encode(body)` is the 4-byte big-endian length followed by the
body; `Encode(empty)` is exactly `[0, 0, 0, 0]`, and Decode of that frame
returns an empty body. -/
theorem encode_layout :
    (∀ body : List Nat, body.length ≤ u32MAX →
        add_headers body = some (toBeBytes body.length ++ body)) ∧
      add_headers [] = some [0, 0, 0, 0] ∧
      (load_tcp_message [[0, 0, 0, 0]]).map Prod.fst = some [] := by
  refine ⟨?_, by decide, by decide⟩
  intro body hb
  have hb32 : body.length < 2 ^ 32 := by
    simp only [u32MAX] at hb
    omega
  unfold add_headers
  rw [if_neg (Nat.not_lt.mpr hb), Nat.mod_eq_of_lt hb32]

/-- Witness for `encode_layout` at `body = [7, 8]`. -/
theorem encode_layout_witness :
    ([7, 8] : List Nat).length ≤ u32MAX ∧
      add_headers [7, 8] = some (toBeBytes ([7, 8] : List Nat).length ++ [7, 8]) :=
  ⟨by decide, encode_layout.1 [7, 8] (by decide)⟩

/-- `C3`: fragmentation independence.  Splitting a valid frame's bytes into
any finite list of non-empty chunks, delivered by successive reads, decodes
to the same body as a single read delivering the whole frame (in
particular, body bytes arriving in the same read as the header are
retained). -/
theorem fragmentation_independence (body : List Nat) (cs : List (List Nat))
    (hb : body.length ≤ u32MAX)
    (hcs : cs.flatten = toBeBytes body.length ++ body)
    (hne : ∀ c ∈ cs, c ≠ []) :
    (load_tcp_message cs).map Prod.fst = some body ∧
      (load_tcp_message cs).map Prod.fst =
        (load_tcp_message [toBeBytes body.length ++ body]).map Prod.fst := by
  have hb32 : body.length < 2 ^ 32 := by
    simp only [u32MAX] at hb
    omega
  have hfb : fromBeBytes (toBeBytes body.length ++ body) = body.length := by
    rw [fromBeBytes_append _ _ (by rw [toBeBytes_length]), fromBeBytes_toBeBytes _ hb32]
  obtain ⟨rest, hload⟩ := load_tcp_message_flatten cs hne
    (by rw [hcs, hfb]; simp [toBeBytes_length])
  rw [hcs, hfb] at hload
  have hbody : load_tcp_message cs = some (body, rest) := by
    rw [hload]
    simp [List.drop_left' (toBeBytes_length body.length)]
  obtain ⟨rest2, hload2⟩ := load_single_frame body hb
  constructor
  · rw [hbody]
    rfl
  · rw [hbody, hload2]
    rfl

/-- Witness for `fragmentation_independence`: the frame for body `[9]` cut
into the chunks `[0, 0]` and `[0, 1, 9]`. -/
theorem fragmentation_independence_witness :
    (load_tcp_message [[0, 0], [0, 1, 9]]).map Prod.fst = some [9] ∧
      (load_tcp_message [[0, 0], [0, 1, 9]]).map Prod.fst =
        (load_tcp_message [toBeBytes ([9] : List Nat).length ++ [9]]).map Prod.fst :=
  fragmentation_independence [9] [[0, 0], [0, 1, 9]] (by decide) (by decide) (by decide)

/-- `C4`: truncation on coalescing.  When the delivered reads contain a
complete frame for `body` immediately followed by extra bytes (for example
the next frame's header), Decode returns exactly `body`; the excess is
dropped, never merged into the returned body. -/
theorem coalesced_truncation (body extra : List Nat) (cs : List (List Nat))
    (hb : body.length ≤ u32MAX)
    (hcs : cs.flatten = toBeBytes body.length ++ body ++ extra)
    (hne : ∀ c ∈ cs, c ≠ []) :
    (load_tcp_message cs).map Prod.fst = some body := by
  have hb32 : body.length < 2 ^ 32 := by
    simp only [u32MAX] at hb
    omega
  have hfb : fromBeBytes (toBeBytes body.length ++ (body ++ extra)) = body.length := by
    rw [fromBeBytes_append _ _ (by rw [toBeBytes_length]), fromBeBytes_toBeBytes _ hb32]
  have hcs' : cs.flatten = toBeBytes body.length ++ (body ++ extra) := by
    rw [hcs, List.append_assoc]
  obtain ⟨rest, hload⟩ := load_tcp_message_flatten cs hne
    (by rw [hcs', hfb]; simp [toBeBytes_length])
  rw [hcs', hfb] at hload
  have : ((toBeBytes body.length ++ (body ++ extra)).drop 4).take body.length = body := by
    rw [List.drop_left' (toBeBytes_length body.length), List.take_left]
  rw [hload, this]
  rfl

/-- Witness for `coalesced_truncation`: one read delivering the frame for
`[1]` followed by two bytes of a next header. -/
theorem coalesced_truncation_witness :
    (load_tcp_message [[0, 0, 0, 1, 1, 0, 0]]).map Prod.fst = some [1] :=
  coalesced_truncation [1] [0, 0] [[0, 0, 0, 1, 1, 0, 0]] (by decide) (by decide) (by decide)

/-- `C5`: a zero-byte read is fatal.  First two conjuncts: whenever the
nonempty chunks delivered so far do not contain the full frame (fewer than
`4 + L` bytes, `L` being the declared length once 4 header bytes exist —
when even the header is incomplete the bound holds vacuously), a subsequent
zero-byte read (an explicit empty chunk, or the stream being exhausted)
makes Decode fail.  Third conjunct: a successful Decode never returns a
short body — its length always equals the length declared by the header it
parsed. -/
theorem zero_byte_read_fatal :
    (∀ (cs tail : List (List Nat)), (∀ c ∈ cs, c ≠ []) →
        cs.flatten.length < 4 + fromBeBytes cs.flatten →
        load_tcp_message (cs ++ [] :: tail) = none) ∧
      (∀ cs : List (List Nat), (∀ c ∈ cs, c ≠ []) →
        cs.flatten.length < 4 + fromBeBytes cs.flatten →
        load_tcp_message cs = none) ∧
      (∀ s body rest, load_tcp_message s = some (body, rest) →
        ∃ hdr r, readUntil 4 [] s = some (hdr, r) ∧
          body.length = (parse_headers hdr).1) := by
  refine ⟨?_, ?_, ?_⟩
  · intro cs tail hne hsh
    by_cases h4 : cs.flatten.length < 4
    · have hnone := (readUntil_short_none 4 cs [] tail hne (by simpa using h4)).1
      simp [load_tcp_message, tcp_read_with_headers, hnone]
    · push_neg at h4
      obtain ⟨cs1, cs2, hsplit, heq⟩ :=
        readUntil_append_some 4 cs [] ([] :: tail) hne (by simpa using h4)
      simp only [List.nil_append] at heq
      have hhdr4 : 4 ≤ cs1.flatten.length := readUntil_ge 4 _ _ _ _ heq
      have hflat : cs.flatten = cs1.flatten ++ cs2.flatten := by
        rw [hsplit, List.flatten_append]
      have hL : fromBeBytes cs1.flatten = fromBeBytes cs.flatten := by
        rw [hflat, fromBeBytes_append _ _ hhdr4]
      have hne2 : ∀ c ∈ cs2, c ≠ [] := by
        intro c hc
        exact hne c (by rw [hsplit]; exact List.mem_append_right _ hc)
      have hlen2 : (cs1.flatten.drop 4).length + cs2.flatten.length
          < fromBeBytes cs1.flatten := by
        have hlenflat := congrArg List.length hflat
        simp only [List.length_append] at hlenflat
        simp only [List.length_drop]
        rw [hL]
        omega
      have hnone2 := (readUntil_short_none _ cs2 (cs1.flatten.drop 4) tail hne2 hlen2).1
      simp only [load_tcp_message, tcp_read_with_headers, heq, parse_headers, hnone2]
  · intro cs hne hsh
    by_cases h4 : cs.flatten.length < 4
    · have hnone := (readUntil_short_none 4 cs [] [] hne (by simpa using h4)).2
      simp [load_tcp_message, tcp_read_with_headers, hnone]
    · push_neg at h4
      obtain ⟨cs1, cs2, hsplit, heq⟩ :=
        readUntil_append_some 4 cs [] [] hne (by simpa using h4)
      simp only [List.nil_append, List.append_nil] at heq
      have hhdr4 : 4 ≤ cs1.flatten.length := readUntil_ge 4 _ _ _ _ heq
      have hflat : cs.flatten = cs1.flatten ++ cs2.flatten := by
        rw [hsplit, List.flatten_append]
      have hL : fromBeBytes cs1.flatten = fromBeBytes cs.flatten := by
        rw [hflat, fromBeBytes_append _ _ hhdr4]
      have hne2 : ∀ c ∈ cs2, c ≠ [] := by
        intro c hc
        exact hne c (by rw [hsplit]; exact List.mem_append_right _ hc)
      have hlen2 : (cs1.flatten.drop 4).length + cs2.flatten.length
          < fromBeBytes cs1.flatten := by
        have hlenflat := congrArg List.length hflat
        simp only [List.length_append] at hlenflat
        simp only [List.length_drop]
        rw [hL]
        omega
      have hnone2 := (readUntil_short_none _ cs2 (cs1.flatten.drop 4) [] hne2 hlen2).2
      simp only [load_tcp_message, tcp_read_with_headers, heq, parse_headers, hnone2]
  · intro s body rest h
    cases htr : tcp_read_with_headers s with
    | none =>
      simp only [load_tcp_message, htr] at h
      exact Option.noConfusion h
    | some v =>
      obtain ⟨⟨L, b0⟩, r⟩ := v
      simp only [load_tcp_message, htr] at h
      cases hru : readUntil L b0 r with
      | none =>
        simp only [hru] at h
        exact Option.noConfusion h
      | some w =>
        obtain ⟨msg, r2⟩ := w
        simp only [hru, Option.some.injEq, Prod.mk.injEq] at h
        obtain ⟨hbody, hrest⟩ := h
        have hge : L ≤ msg.length := readUntil_ge L r b0 msg r2 hru
        cases hru4 : readUntil 4 [] s with
        | none =>
          simp only [tcp_read_with_headers, hru4] at htr
          exact Option.noConfusion htr
        | some u =>
          obtain ⟨m, rr⟩ := u
          simp only [tcp_read_with_headers, hru4, Option.some.injEq, Prod.mk.injEq] at htr
          obtain ⟨hparse, hrr⟩ := htr
          refine ⟨m, rr, rfl, ?_⟩
          rw [hparse]
          show body.length = L
          by_cases hlt : L < msg.length
          · rw [← hbody, if_pos hlt]
            simp [Nat.min_eq_left (Nat.le_of_lt hlt)]
          · rw [← hbody, if_neg hlt]
            omega

/-- Witness for `zero_byte_read_fatal`: a frame declaring 2 body bytes but
delivering one, followed by a zero-byte read (part 1) or by closure
(part 2); and the complete frame for `[9]` (part 3). -/
theorem zero_byte_read_fatal_witness :
    load_tcp_message ([[0, 0, 0, 2, 7]] ++ [] :: []) = none ∧
      load_tcp_message [[0, 0, 0, 2, 7]] = none ∧
      ∃ hdr r, readUntil 4 [] [[0, 0, 0, 1, 9]] = some (hdr, r) ∧
        ([9] : List Nat).length = (parse_headers hdr).1 :=
  ⟨zero_byte_read_fatal.1 [[0, 0, 0, 2, 7]] [] (by decide) (by decide),
   zero_byte_read_fatal.2.1 [[0, 0, 0, 2, 7]] (by decide) (by decide),
   zero_byte_read_fatal.2.2 [[0, 0, 0, 1, 9]] [9] [] (by decide)⟩

/-- `C6`: encoding a body longer than `2 ^ 32 - 1` bytes fails fatally
before producing any frame. -/
theorem oversized_encode_rejected (message : List Nat)
    (h : u32MAX < message.length) : add_headers message = none := by
  unfold add_headers
  rw [if_pos h]

/-- Witness for `oversized_encode_rejected` at a `2 ^ 32`-byte body. -/
theorem oversized_encode_rejected_witness :
    u32MAX < (List.replicate (2 ^ 32) (0 : Nat)).length ∧
      add_headers (List.replicate (2 ^ 32) (0 : Nat)) = none :=
  ⟨by rw [List.length_replicate]; decide,
   oversized_encode_rejected _ (by rw [List.length_replicate]; decide)⟩

/-- `readUntil` when the target is already met: no read happens. -/
theorem readUntil_done (t : Nat) (acc : List Nat) (s : List (List Nat))
    (h : t ≤ acc.length) : readUntil t acc s = some (acc, s) := by
  cases s with
  | nil => simp [readUntil, h]
  | cons c rest => simp [readUntil, h]

/-- `readUntil` consuming one nonempty chunk. -/
theorem readUntil_step (t : Nat) (acc c : List Nat) (rest : List (List Nat))
    (h : ¬ t ≤ acc.length) (hc : ¬ c.length = 0) :
    readUntil t acc (c :: rest) = readUntil t (acc ++ c) rest := by
  simp [readUntil, h, hc]

/-- Decode of a stream whose first read delivers exactly one whole frame:
returns the frame's body and leaves the remaining reads untouched. -/
theorem load_frame_cons (body : List Nat) (extra : List (List Nat))
    (hb : body.length ≤ u32MAX) :
    load_tcp_message ((toBeBytes body.length ++ body) :: extra) = some (body, extra) := by
  have hb32 : body.length < 2 ^ 32 := by
    simp only [u32MAX] at hb
    omega
  have hfbb : fromBeBytes (toBeBytes body.length ++ body) = body.length := by
    rw [fromBeBytes_append _ _ (by rw [toBeBytes_length]), fromBeBytes_toBeBytes _ hb32]
  have hlen : 4 ≤ (toBeBytes body.length ++ body).length := by
    simp [toBeBytes_length]
  have hne : ¬ (toBeBytes body.length ++ body).length = 0 := by omega
  have h1 : readUntil 4 [] ((toBeBytes body.length ++ body) :: extra)
      = some (toBeBytes body.length ++ body, extra) := by
    rw [readUntil_step 4 [] _ extra (by simp) hne, List.nil_append,
      readUntil_done 4 _ extra hlen]
  have hparse : parse_headers (toBeBytes body.length ++ body) = (body.length, body) := by
    unfold parse_headers
    rw [hfbb, List.drop_left' (toBeBytes_length body.length)]
  simp only [load_tcp_message, tcp_read_with_headers, h1, hparse,
    readUntil_done body.length body extra (Nat.le_refl _)]
  rw [if_neg (Nat.lt_irrefl _)]

/-! ### The session (`main`), strings as lists of Unicode code points -/

/-- The code points of a string literal (Rust `&str` / `String` compared by
equality is equality of code-point sequences). -/
def strCps (s : String) : List Nat := s.data.map Char.toNat

/-- UTF-8 encoding of one Unicode scalar value (Rust `str::as_bytes` per
code point). -/
def utf8EncodeCp (c : Nat) : List Nat :=
  if c < 0x80 then [c]
  else if c < 0x800 then [0xC0 + c / 64, 0x80 + c % 64]
  else if c < 0x10000 then [0xE0 + c / 4096, 0x80 + c / 64 % 64, 0x80 + c % 64]
  else [0xF0 + c / 262144, 0x80 + c / 4096 % 64, 0x80 + c / 64 % 64, 0x80 + c % 64]

/-- `message.as_bytes()`: the UTF-8 byte sequence of a string given by its
code points. -/
def strBytes (s : List Nat) : List Nat := (s.map utf8EncodeCp).flatten

/-- `CONNECT_MESSAGE = "Connect"`. -/
def CONNECT_MESSAGE : List Nat := strCps "Connect"

/-- `ACCEPT_RESPONSE = "Accept"`. -/
def ACCEPT_RESPONSE : List Nat := strCps "Accept"

/-- `REQUEST_PREFIX = "GET:"`. -/
def REQUEST_PREFIX : List Nat := strCps "GET:"

/-- `BYE_MESSAGE = "BYE"`. -/
def BYE_MESSAGE : List Nat := strCps "BYE"

/-- `BYE_RESPONSE = "BYE"`. -/
def BYE_RESPONSE : List Nat := strCps "BYE"

/-- `generate_request_from_url`: `String::from(REQUEST_PREFIX).add(url)`,
i.e. the url appended directly after the prefix with no separator. -/
def generate_request_from_url (url : List Nat) : List Nat := REQUEST_PREFIX ++ url

/-- `send_message`: frame the UTF-8 bytes of the message with `add_headers`
and write the whole frame to the socket (the write loop sends every byte;
write errors are external).  The result is the frame put on the wire;
`none` models the panic inside `add_headers`. -/
def send_message (message : List Nat) : Option (List Nat) :=
  add_headers (strBytes message)

/-- `U+FFFD`, the Unicode replacement character. -/
def replacementChar : Nat := 0xFFFD

/-- Worker for `utf8DecodeLossy`, structurally recursive on a fuel argument
so that the kernel can evaluate it (every step consumes at least one input
byte, so fuel equal to the input length is never exhausted). -/
def utf8DecodeLossyGo : Nat → List Nat → List Nat
  | _, [] => []
  | 0, _ :: _ => []
  | fuel + 1, b0 :: rest =>
    if b0 < 0x80 then b0 :: utf8DecodeLossyGo fuel rest
    else if b0 < 0xC2 then replacementChar :: utf8DecodeLossyGo fuel rest
    else if b0 ≤ 0xDF then
      match rest with
      | [] => [replacementChar]
      | b1 :: rest1 =>
        if 0x80 ≤ b1 ∧ b1 ≤ 0xBF then
          ((b0 - 0xC0) * 64 + (b1 - 0x80)) :: utf8DecodeLossyGo fuel rest1
        else replacementChar :: utf8DecodeLossyGo fuel (b1 :: rest1)
    else if b0 ≤ 0xEF then
      match rest with
      | [] => [replacementChar]
      | b1 :: rest1 =>
        if (b0 = 0xE0 ∧ 0xA0 ≤ b1 ∧ b1 ≤ 0xBF) ∨
            (0xE1 ≤ b0 ∧ b0 ≤ 0xEC ∧ 0x80 ≤ b1 ∧ b1 ≤ 0xBF) ∨
            (b0 = 0xED ∧ 0x80 ≤ b1 ∧ b1 ≤ 0x9F) ∨
            (0xEE ≤ b0 ∧ 0x80 ≤ b1 ∧ b1 ≤ 0xBF) then
          match rest1 with
          | [] => [replacementChar]
          | b2 :: rest2 =>
            if 0x80 ≤ b2 ∧ b2 ≤ 0xBF then
              ((b0 - 0xE0) * 4096 + (b1 - 0x80) * 64 + (b2 - 0x80)) ::
                utf8DecodeLossyGo fuel rest2
            else replacementChar :: utf8DecodeLossyGo fuel (b2 :: rest2)
        else replacementChar :: utf8DecodeLossyGo fuel (b1 :: rest1)
    else if b0 ≤ 0xF4 then
      match rest with
      | [] => [replacementChar]
      | b1 :: rest1 =>
        if (b0 = 0xF0 ∧ 0x90 ≤ b1 ∧ b1 ≤ 0xBF) ∨
            (0xF1 ≤ b0 ∧ b0 ≤ 0xF3 ∧ 0x80 ≤ b1 ∧ b1 ≤ 0xBF) ∨
            (b0 = 0xF4 ∧ 0x80 ≤ b1 ∧ b1 ≤ 0x8F) then
          match rest1 with
          | [] => [replacementChar]
          | b2 :: rest2 =>
            if 0x80 ≤ b2 ∧ b2 ≤ 0xBF then
              match rest2 with
              | [] => [replacementChar]
              | b3 :: rest3 =>
                if 0x80 ≤ b3 ∧ b3 ≤ 0xBF then
                  ((b0 - 0xF0) * 262144 + (b1 - 0x80) * 4096 + (b2 - 0x80) * 64 +
                    (b3 - 0x80)) :: utf8DecodeLossyGo fuel rest3
                else replacementChar :: utf8DecodeLossyGo fuel (b3 :: rest3)
            else replacementChar :: utf8DecodeLossyGo fuel (b2 :: rest2)
        else replacementChar :: utf8DecodeLossyGo fuel (b1 :: rest1)
    else replacementChar :: utf8DecodeLossyGo fuel rest

/-- `String::from_utf8_lossy`: decode UTF-8, replacing each maximal invalid
subpart with `U+FFFD` (substitution of maximal subparts, as the Rust
standard library does: an invalid leading byte is skipped alone; a valid
lead whose continuation bytes go wrong is skipped together with the valid
continuations read so far; a truncated final sequence yields a single
replacement character).  Total: invalid input is never rejected.  The fuel
argument of `utf8DecodeLossyGo` only bounds the recursion depth: every step
consumes at least one input byte, so fuel equal to the input length is
never exhausted. -/
def utf8DecodeLossy (l : List Nat) : List Nat :=
  utf8DecodeLossyGo l.length l

/-- `response_to_string`: `String::from_utf8_lossy(content).to_string()`,
as a code-point sequence. -/
def response_to_string (content : List Nat) : List Nat :=
  utf8DecodeLossy content

/-- Observable effects of one run of `main`'s session (after the transport
is connected): the frames written to the socket in order, whether the
output file was created (`File::create`), the bytes written into it, and
whether the run reached the end of `main` without a panic. -/
structure SessionTrace where
  sent : List (List Nat)
  fileCreated : Bool
  fileContents : List Nat
  finished : Bool
deriving DecidableEq

/-- The session logic of `main` (lines 48-64): send `Connect`; decode and
check `Accept`; only then create the output file; send `GET:<url>`; decode
the payload and write it to the file; send `BYE`; decode and check `BYE`.
A failed decode or a mismatched token panics, ending the run with
`finished = false` and no further sends. -/
def run_session (url : List Nat) (stream : List (List Nat)) : SessionTrace :=
  match send_message CONNECT_MESSAGE with
  | none => ⟨[], false, [], false⟩
  | some f1 =>
    match load_tcp_message stream with
    | none => ⟨[f1], false, [], false⟩
    | some (b1, s1) =>
      if response_to_string b1 = ACCEPT_RESPONSE then
        match send_message (generate_request_from_url url) with
        | none => ⟨[f1], true, [], false⟩
        | some f2 =>
          match load_tcp_message s1 with
          | none => ⟨[f1, f2], true, [], false⟩
          | some (b2, s2) =>
            match send_message BYE_MESSAGE with
            | none => ⟨[f1, f2], true, b2, false⟩
            | some f3 =>
              match load_tcp_message s2 with
              | none => ⟨[f1, f2, f3], true, b2, false⟩
              | some (b3, _) =>
                if response_to_string b3 = BYE_RESPONSE then
                  ⟨[f1, f2, f3], true, b2, true⟩
                else ⟨[f1, f2, f3], true, b2, false⟩
      else ⟨[f1], false, [], false⟩

theorem send_message_connect :
    send_message CONNECT_MESSAGE =
      some [0, 0, 0, 7, 67, 111, 110, 110, 101, 99, 116] := by decide

theorem send_message_bye :
    send_message BYE_MESSAGE = some [0, 0, 0, 3, 66, 89, 69] := by decide

/-- `C7`: end-to-end session.  For any url and payload `P`, with the
inbound reads delivering `Encode("Accept")`, `Encode(P)`, `Encode("BYE")`
(one frame per read), the session sends exactly `Encode("Connect")`, then
`Encode("GET:" ++ url)` (the url directly after the 4-character prefix),
then `Encode("BYE")`, in that order, writes `P` unmodified to the output
file, and terminates cleanly. -/
theorem end_to_end_session (url P fa fp fb : List Nat)
    (ha : add_headers (strBytes ACCEPT_RESPONSE) = some fa)
    (hp : add_headers P = some fp)
    (hbf : add_headers (strBytes BYE_RESPONSE) = some fb)
    (hu : (strBytes (generate_request_from_url url)).length ≤ u32MAX) :
    generate_request_from_url url = REQUEST_PREFIX ++ url ∧
      ∃ f2, send_message (generate_request_from_url url) = some f2 ∧
        run_session url [fa, fp, fb] =
          ⟨[[0, 0, 0, 7, 67, 111, 110, 110, 101, 99, 116], f2,
              [0, 0, 0, 3, 66, 89, 69]], true, P, true⟩ := by
  refine ⟨rfl, ?_⟩
  have hfa : fa = toBeBytes (strBytes ACCEPT_RESPONSE).length ++ strBytes ACCEPT_RESPONSE := by
    unfold add_headers at ha
    rw [if_neg (by decide), Nat.mod_eq_of_lt (by decide)] at ha
    exact (Option.some.inj ha).symm
  have hfbv : fb = toBeBytes (strBytes BYE_RESPONSE).length ++ strBytes BYE_RESPONSE := by
    unfold add_headers at hbf
    rw [if_neg (by decide), Nat.mod_eq_of_lt (by decide)] at hbf
    exact (Option.some.inj hbf).symm
  have hplen : ¬ u32MAX < P.length := by
    intro hcon
    unfold add_headers at hp
    rw [if_pos hcon] at hp
    exact Option.noConfusion hp
  have hp32 : P.length < 2 ^ 32 := by
    simp only [u32MAX] at hplen
    omega
  have hfp : fp = toBeBytes P.length ++ P := by
    unfold add_headers at hp
    rw [if_neg hplen, Nat.mod_eq_of_lt hp32] at hp
    exact (Option.some.inj hp).symm
  subst hfa hfbv hfp
  have hl1 := load_frame_cons (strBytes ACCEPT_RESPONSE)
    [toBeBytes P.length ++ P,
      toBeBytes (strBytes BYE_RESPONSE).length ++ strBytes BYE_RESPONSE] (by decide)
  have hl2 := load_frame_cons P
    [toBeBytes (strBytes BYE_RESPONSE).length ++ strBytes BYE_RESPONSE]
    (Nat.le_of_not_lt hplen)
  have hl3 := load_frame_cons (strBytes BYE_RESPONSE) [] (by decide)
  have hu32 : (strBytes (generate_request_from_url url)).length < 2 ^ 32 := by
    simp only [u32MAX] at hu
    omega
  have hs2 : send_message (generate_request_from_url url)
      = some (toBeBytes (strBytes (generate_request_from_url url)).length
        ++ strBytes (generate_request_from_url url)) := by
    unfold send_message add_headers
    rw [if_neg (Nat.not_lt.mpr hu), Nat.mod_eq_of_lt hu32]
  refine ⟨_, hs2, ?_⟩
  have hacc : response_to_string (strBytes ACCEPT_RESPONSE) = ACCEPT_RESPONSE := by decide
  have hbye : response_to_string (strBytes BYE_RESPONSE) = BYE_RESPONSE := by decide
  simp only [run_session, send_message_connect, hl1, hacc, hs2, hl2, send_message_bye,
    hl3, hbye, eq_self_iff_true, if_true]

/-- Witness for `end_to_end_session`: url `"u"`, payload `[1, 2]`. -/
theorem end_to_end_session_witness :
    add_headers (strBytes ACCEPT_RESPONSE) = some [0, 0, 0, 6, 65, 99, 99, 101, 112, 116] ∧
      add_headers [1, 2] = some [0, 0, 0, 2, 1, 2] ∧
      add_headers (strBytes BYE_RESPONSE) = some [0, 0, 0, 3, 66, 89, 69] ∧
      (strBytes (generate_request_from_url [117])).length ≤ u32MAX ∧
      (generate_request_from_url [117] = REQUEST_PREFIX ++ [117] ∧
        ∃ f2, send_message (generate_request_from_url [117]) = some f2 ∧
          run_session [117] [[0, 0, 0, 6, 65, 99, 99, 101, 112, 116], [0, 0, 0, 2, 1, 2],
              [0, 0, 0, 3, 66, 89, 69]] =
            ⟨[[0, 0, 0, 7, 67, 111, 110, 110, 101, 99, 116], f2, [0, 0, 0, 3, 66, 89, 69]],
              true, [1, 2], true⟩) :=
  ⟨by decide, by decide, by decide, by decide,
    end_to_end_session [117] [1, 2] _ _ _ (by decide) (by decide) (by decide) (by decide)⟩

/-- `C8`: a mismatched handshake token is fatal.  If the first decoded
inbound body does not read as `"Accept"`, the session aborts having sent
only the `Connect` frame — the request frame is never sent and the file is
never created.  Likewise, if the final inbound token does not read as
`"BYE"`, the run does not terminate cleanly. -/
theorem handshake_mismatch_aborts :
    (∀ (url : List Nat) (stream : List (List Nat)) (b : List Nat) (rest : List (List Nat)),
        load_tcp_message stream = some (b, rest) →
        response_to_string b ≠ ACCEPT_RESPONSE →
        run_session url stream =
          ⟨[[0, 0, 0, 7, 67, 111, 110, 110, 101, 99, 116]], false, [], false⟩) ∧
      (∀ (url : List Nat) (stream : List (List Nat)) (b1 : List Nat) (s1 : List (List Nat))
          (b2 : List Nat) (s2 : List (List Nat)) (b3 : List Nat) (s3 : List (List Nat)),
        load_tcp_message stream = some (b1, s1) →
        response_to_string b1 = ACCEPT_RESPONSE →
        load_tcp_message s1 = some (b2, s2) →
        load_tcp_message s2 = some (b3, s3) →
        response_to_string b3 ≠ BYE_RESPONSE →
        (run_session url stream).finished = false) := by
  constructor
  · intro url stream b rest hld hne
    simp only [run_session, send_message_connect, hld, if_neg hne]
  · intro url stream b1 s1 b2 s2 b3 s3 h1 hacc h2 h3 hne
    cases hs2 : send_message (generate_request_from_url url) with
    | none =>
      simp [run_session, send_message_connect, h1, hacc, hs2]
    | some f2 =>
      simp [run_session, send_message_connect, h1, hacc, hs2, h2,
        send_message_bye, h3, hne]

/-- Witness for `handshake_mismatch_aborts`: a `"Reject"` first frame
(part 1), and a final `"NO"` frame after a clean accept and an empty
payload (part 2). -/
theorem handshake_mismatch_aborts_witness :
    run_session [] [[0, 0, 0, 6, 82, 101, 106, 101, 99, 116]] =
        ⟨[[0, 0, 0, 7, 67, 111, 110, 110, 101, 99, 116]], false, [], false⟩ ∧
      (run_session [] [[0, 0, 0, 6, 65, 99, 99, 101, 112, 116], [0, 0, 0, 0],
          [0, 0, 0, 2, 78, 79]]).finished = false :=
  ⟨handshake_mismatch_aborts.1 [] _ [82, 101, 106, 101, 99, 116] [] (by decide) (by decide),
   handshake_mismatch_aborts.2 [] _ [65, 99, 99, 101, 112, 116]
     [[0, 0, 0, 0], [0, 0, 0, 2, 78, 79]] [] [[0, 0, 0, 2, 78, 79]] [78, 79] []
     (by decide) (by decide) (by decide) (by decide) (by decide)⟩

/-- `C9`: handshake tokens are compared as text after a lossy decode.  The
acceptance test applied to the first inbound body is exactly
`response_to_string b = "Accept"` — a total function with no separate
invalid-encoding error — so every byte sequence whose lossy decoding equals
the token is accepted (the session proceeds and creates the file); and
invalid UTF-8 bytes are replaced by `U+FFFD`, not rejected. -/
theorem lossy_accept_comparison :
    (∀ (url : List Nat) (stream : List (List Nat)) (b : List Nat) (rest : List (List Nat)),
        load_tcp_message stream = some (b, rest) →
        response_to_string b = ACCEPT_RESPONSE →
        (run_session url stream).fileCreated = true) ∧
      response_to_string [72, 105, 255] = [72, 105, replacementChar] := by
  constructor
  · intro url stream b rest hld hacc
    simp only [run_session, send_message_connect, hld, hacc, eq_self_iff_true, if_true]
    repeat' split
    all_goals rfl
  · decide

/-- Witness for `lossy_accept_comparison`: a well-formed `"Accept"` first
frame makes the session create the file. -/
theorem lossy_accept_comparison_witness :
    (run_session [] [[0, 0, 0, 6, 65, 99, 99, 101, 112, 116]]).fileCreated = true :=
  lossy_accept_comparison.1 [] _ [65, 99, 99, 101, 112, 116] [] (by decide) (by decide)

/-- `C10`: the output file is created exactly when the first inbound frame
decodes successfully and its body reads as `"Accept"`; a run that aborts at
the accept phase never creates (or truncates) the file. -/
theorem file_created_iff_accept (url : List Nat) (stream : List (List Nat)) :
    (run_session url stream).fileCreated = true ↔
      ∃ b rest, load_tcp_message stream = some (b, rest) ∧
        response_to_string b = ACCEPT_RESPONSE := by
  constructor
  · intro h
    cases hld : load_tcp_message stream with
    | none =>
      simp only [run_session, send_message_connect, hld] at h
      exact Bool.noConfusion h
    | some v =>
      obtain ⟨b, rest⟩ := v
      by_cases hacc : response_to_string b = ACCEPT_RESPONSE
      · exact ⟨b, rest, rfl, hacc⟩
      · simp only [run_session, send_message_connect, hld, if_neg hacc] at h
        exact Bool.noConfusion h
  · rintro ⟨b, rest, hld, hacc⟩
    simp only [run_session, send_message_connect, hld, hacc, eq_self_iff_true, if_true]
    repeat' split
    all_goals rfl

/-- Witness for `file_created_iff_accept` at a concrete accepting stream. -/
theorem file_created_iff_accept_witness :
    (run_session [] [[0, 0, 0, 6, 65, 99, 99, 101, 112, 116]]).fileCreated = true ↔
      ∃ b rest, load_tcp_message [[0, 0, 0, 6, 65, 99, 99, 101, 112, 116]] = some (b, rest) ∧
        response_to_string b = ACCEPT_RESPONSE :=
  file_created_iff_accept [] [[0, 0, 0, 6, 65, 99, 99, 101, 112, 116]]
